import Mathlib

/-!
Verification of the ico-mcp ingestion-and-versioning pipeline.

This file gives a shallow embedding of the core of the repository:
the CSV field parser (`parseCSVLine` in `setup-db-fast.ts` and
`setup-db-streaming.ts`), the batch loader's per-line processing
(`setupDatabaseFast`), the version ledger operations
(`DatabaseService.insertDataVersion` and the fast path's
archive-then-insert-or-replace), and the read contract
(`DatabaseService.searchRegistrations` plus the REST route's default
pagination).  SQLite behaviour that the TypeScript delegates to the
database engine (LIKE matching, ORDER BY, LIMIT/OFFSET grammar,
UNIQUE constraints, INSERT OR REPLACE) is embedded explicitly.
-/

namespace IcoMcp

/-! ### Field parser (source embedding)

`parseCSVLine` from `src/scripts/setup-db-fast.ts` lines 10-42 (identical
copy in `setup-db-streaming.ts` lines 12-44).  The JS loop walks the line
with an index `i`; consuming one character corresponds to `i++` and
consuming two characters to `i += 2`, so the loop is embedded
structurally over the list of characters.  Strings are modelled as
`List Char`; the JS `current += char` is `current ++ [c]` and
`result.push(current)` is `result ++ [current]`. -/

/-- The double-quote character used by the parser. -/
def quoteChar : Char := Char.ofNat 34

/-- Faithful embedding of the body of `parseCSVLine`:
state is `(current, inQuotes, result)`; the `i`-indexed `while` loop is
the recursion over the remaining characters. -/
def parseFieldsAux : List Char → List Char → Bool → List (List Char) → List (List Char)
  | [], current, _, result => result ++ [current]
  | c :: rest, current, inQuotes, result =>
    if c = quoteChar then
      if inQuotes then
        match rest with
        | r2 :: rest2 =>
          if r2 = quoteChar then
            parseFieldsAux rest2 (current ++ [quoteChar]) true result
          else
            parseFieldsAux (r2 :: rest2) current false result
        | [] => parseFieldsAux [] current false result
      else
        parseFieldsAux rest current true result
    else if c = ',' ∧ inQuotes = false then
      parseFieldsAux rest [] inQuotes (result ++ [current])
    else
      parseFieldsAux rest (current ++ [c]) inQuotes result
termination_by structural l _ _ _ => l

/-- `parseCSVLine(line)` from the source: returns the ordered field list.
Total: every input produces a value, no error path exists. -/
def parseCSVLine (line : String) : List String :=
  (parseFieldsAux line.data [] false []).map (fun f => String.mk f)

/-! ### Field parser (specification model)

Modelled from the spec's words (section 4.1): "fields are separated by a
delimiter character outside of quoted spans; a field may be wrapped in a
quote character, inside which the delimiter and newlines are literal; a
doubled quote character inside a quoted span represents one literal
quote character; an unterminated quoted span at end-of-line is treated
as implicitly closed (lenient, no error raised)".  The Bool argument
records whether we are inside a quoted span. -/

/-- Prepend a character to the first field of a field list. -/
def prependToFirst (c : Char) : List (List Char) → List (List Char)
  | [] => [[c]]
  | f :: fs => (c :: f) :: fs

/-- Splitting on the delimiter only outside quoted spans, per the spec's
rules; `true` means the position is inside a quoted span. -/
def splitFields : Bool → List Char → List (List Char)
  | _, [] => [[]]
  | false, c :: rest =>
    if c = ',' then [] :: splitFields false rest
    else if c = quoteChar then splitFields true rest
    else prependToFirst c (splitFields false rest)
  | true, c :: rest =>
    if c = quoteChar then
      match rest with
      | r2 :: rest2 =>
        if r2 = quoteChar then prependToFirst quoteChar (splitFields true rest2)
        else splitFields false (r2 :: rest2)
      | [] => splitFields false []
    else prependToFirst c (splitFields true rest)
termination_by structural _ l => l

/-- The spec-side field splitter on strings. -/
def splitLineSpec (line : String) : List String :=
  (splitFields false line.data).map (fun f => String.mk f)

/-- Apply a function to the first field (used to relate the accumulator
form of the source loop to the spec splitter). -/
def mapFirstField (g : List Char → List Char) : List (List Char) → List (List Char)
  | [] => [g []]
  | f :: fs => g f :: fs

/-! ### Query service: `DatabaseService.searchRegistrations`

`src/services/database.ts` lines 160-205 builds
`SELECT * FROM ico_registrations WHERE 1=1` plus one predicate per
truthy filter field (JS truthiness: a filter is applied only when the
option is present and non-empty / non-zero), then
`ORDER BY organisation_name`, then `LIMIT ?` only when `query.limit` is
truthy and `OFFSET ?` only when `query.offset` is truthy.  The SQLite
behaviour the query relies on is embedded explicitly:

* `LIKE` with the pattern built as percent-value-percent; SQLite's LIKE
  is case-insensitive for the ASCII letters and treats the percent sign
  as "any sequence of characters" and the underscore as "any single
  character";
* `=` on TEXT uses the BINARY collation (case-sensitive equality);
* `ORDER BY organisation_name` sorts ascending under the BINARY
  collation, which on UTF-8 text is codepoint-lexicographic order;
* SQLite's grammar only admits an OFFSET clause after a LIMIT clause,
  so a statement ending in `OFFSET ?` with no `LIMIT` fails to prepare
  with a syntax error. -/

/-- ASCII-only lower-casing, the folding SQLite's LIKE applies. -/
def lowerAscii (c : Char) : Char :=
  if 'A' ≤ c ∧ c ≤ 'Z' then Char.ofNat (c.toNat + 32) else c

/-- SQLite LIKE matching: pattern against text, ASCII-case-insensitive,
with the percent and underscore metacharacters. -/
def likeMatch : List Char → List Char → Bool
  | [], s => s.isEmpty
  | p :: ps, s =>
    if p = '%' then s.tails.any (fun t => likeMatch ps t)
    else if p = '_' then
      match s with
      | [] => false
      | _ :: s2 => likeMatch ps s2
    else
      match s with
      | [] => false
      | c :: s2 => lowerAscii p = lowerAscii c && likeMatch ps s2
termination_by structural p _ => p

/-- The LIKE pattern the source builds for partial matches:
a percent sign, the filter value, a percent sign. -/
def likePattern (v : String) : List Char := '%' :: (v.data ++ ['%'])

/-- One row of `ico_registrations`.  The five columns the query service
filters or orders on are named; the remaining 21 optional columns are
kept as a list in the insert statement's order. -/
structure IcoRegistration where
  registrationNumber : String
  organisationName : String
  organisationPostcode : String
  publicAuthority : String
  paymentTier : String
  otherFields : List String
deriving DecidableEq, Repr

/-- The `SearchQuery` filter object from `src/types/ico.ts`. -/
structure SearchQuery where
  organisationName : Option String := none
  registrationNumber : Option String := none
  postcode : Option String := none
  publicAuthority : Option String := none
  paymentTier : Option String := none
  limit : Option Nat := none
  offset : Option Nat := none
deriving DecidableEq, Repr

/-- JS truthiness of an optional string (`undefined` and the empty
string are falsy). -/
def strTruthy : Option String → Bool
  | none => false
  | some s => ¬ s.isEmpty

/-- JS truthiness of an optional number (`undefined` and `0` are
falsy). -/
def natTruthy : Option Nat → Bool
  | none => false
  | some n => n ≠ 0

/-- The WHERE clause of `searchRegistrations`: one conjunct per truthy
filter option, in the source's order. -/
def matchesQuery (q : SearchQuery) (r : IcoRegistration) : Bool :=
  (if strTruthy q.organisationName then
    likeMatch (likePattern (q.organisationName.getD "")) r.organisationName.data
   else true)
  && (if strTruthy q.registrationNumber then
    r.registrationNumber = q.registrationNumber.getD ""
   else true)
  && (if strTruthy q.postcode then
    likeMatch (likePattern (q.postcode.getD "")) r.organisationPostcode.data
   else true)
  && (if strTruthy q.publicAuthority then
    r.publicAuthority = q.publicAuthority.getD ""
   else true)
  && (if strTruthy q.paymentTier then
    r.paymentTier = q.paymentTier.getD ""
   else true)

/-- Codepoint-lexicographic order on character lists: the BINARY
collation SQLite's ORDER BY applies to UTF-8 TEXT. -/
def lexLe : List Char → List Char → Bool
  | [], _ => true
  | _ :: _, [] => false
  | a :: as, b :: bs =>
    if a.toNat < b.toNat then true
    else if a.toNat = b.toNat then lexLe as bs
    else false

/-- Row order used by `ORDER BY organisation_name`. -/
def rowLe (a b : IcoRegistration) : Prop :=
  lexLe a.organisationName.data b.organisationName.data = true

instance : DecidableRel rowLe := fun a b => by
  unfold rowLe
  infer_instance

/-- `ORDER BY organisation_name` ascending. -/
def sortByName (rows : List IcoRegistration) : List IcoRegistration :=
  List.insertionSort rowLe rows

/-- The full matching, ordered result set before LIMIT/OFFSET. -/
def sortedMatches (q : SearchQuery) (st : List IcoRegistration) : List IcoRegistration :=
  sortByName (st.filter (matchesQuery q))

/-- `DatabaseService.searchRegistrations`: filter, order, then apply
LIMIT/OFFSET exactly as the source's truthiness-guarded clause building
does.  A LIMIT clause is added only when `query.limit` is truthy, an
OFFSET clause only when `query.offset` is truthy; OFFSET without LIMIT
is a SQLite syntax error. -/
def searchRegistrations (q : SearchQuery) (st : List IcoRegistration) :
    Except String (List IcoRegistration) :=
  let rows := sortedMatches q st
  if natTruthy q.limit then
    if natTruthy q.offset then
      Except.ok ((rows.drop (q.offset.getD 0)).take (q.limit.getD 0))
    else
      Except.ok (rows.take (q.limit.getD 0))
  else
    if natTruthy q.offset then
      Except.error "SQLITE_ERROR: near OFFSET: syntax error"
    else
      Except.ok rows

/-- The GET /search route (`src/api/routes/ico.ts` lines 9-19): absent
query-string parameters stay undefined for the five filter fields, while
`limit` defaults to 10 and `offset` to 0 before the query object is
handed to the service layer. -/
def routeSearchQuery (name regNum pc pa tier : Option String)
    (limitParam offsetParam : Option Nat) : SearchQuery :=
  { organisationName := name
    registrationNumber := regNum
    postcode := pc
    publicAuthority := pa
    paymentTier := tier
    limit := some (limitParam.getD 10)
    offset := some (offsetParam.getD 0) }

/-- The spec-side predicate for the substring-search claim: the name
field contains the filter value as a substring, compared
case-insensitively for ASCII letters. -/
def containsCI (s v : String) : Prop :=
  (v.data.map lowerAscii) <:+: (s.data.map lowerAscii)

instance (s v : String) : Decidable (containsCI s v) := by
  unfold containsCI
  infer_instance

deriving instance DecidableEq for Except

/-! ### Batch loader: `setupDatabaseFast`

`src/scripts/setup-db-fast.ts` lines 160-305: split the file on the
newline character, take the first line as the header, build a
column-name-to-position map (later duplicate header names overwrite
earlier ones), then for every further line: trim it, skip blank lines,
parse it with `parseCSVLine`, read `Registration_number` and
`Organisation_name` through the column map, count the row as skipped if
either is empty, otherwise count it as imported and write it with
`INSERT OR REPLACE INTO ico_registrations` keyed on
`registration_number`. -/

/-- Characters the model treats as trimmable whitespace, as JS
`String.prototype.trim` does. -/
def isWsChar (c : Char) : Bool :=
  c = ' ' ∨ c = '\t' ∨ c = '\n' ∨ c = '\r'

/-- Drop leading whitespace. -/
def trimLeftChars : List Char → List Char
  | [] => []
  | c :: rest => if isWsChar c then trimLeftChars rest else c :: rest

/-- JS `line.trim()`: drop leading and trailing whitespace. -/
def jsTrim (s : String) : String :=
  String.mk ((trimLeftChars ((trimLeftChars s.data).reverse)).reverse)

/-- JS `fileContent.split('\n')`. -/
def splitLinesAux : List Char → List Char → List String
  | [], cur => [String.mk cur]
  | c :: rest, cur =>
    if c = '\n' then String.mk cur :: splitLinesAux rest []
    else splitLinesAux rest (cur ++ [c])

/-- Split a file's content into lines at newline characters. -/
def splitNewlines (content : String) : List String :=
  splitLinesAux content.data []

/-- `columnMap.get(name)` after `headers.forEach(set)`: the position of
the last header cell equal to `name`, if any. -/
def colIndex (headers : List String) (name : String) : Option Nat :=
  (((headers.enum).filter (fun p => p.2 = name)).map (fun p => p.1)).getLast?

/-- `getField(fieldName)` from the loader: look the name up in the
column map and fall back to the empty string when the column is missing
or the row is short (`values[index] || ''`). -/
def getField (headers values : List String) (name : String) : String :=
  match colIndex headers name with
  | none => ""
  | some i => values.getD i ""

/-- The 21 source column names bound to the insert statement besides the
five named fields, in the statement's order. -/
def otherFieldNames : List String :=
  ["Organisation_address_line_1", "Organisation_address_line_2",
   "Organisation_address_line_3", "Organisation_address_line_4",
   "Organisation_address_line_5", "Start_date_of_registration",
   "End_date_of_registration", "Trading_names",
   "DPO_or_Person_responsible_for_DP_Title",
   "DPO_or_Person_responsible_for_DP_First_name",
   "DPO_or_Person_responsible_for_DP_Last_name",
   "DPO_or_Person_responsible_for_DP_Organisation",
   "DPO_or_Person_responsible_for_DP_Email",
   "DPO_or_Person_responsible_for_DP_Phone",
   "DPO_or_Person_responsible_for_DP_Address_line_1",
   "DPO_or_Person_responsible_for_DP_Address_line_2",
   "DPO_or_Person_responsible_for_DP_Address_line_3",
   "DPO_or_Person_responsible_for_DP_Address_line_4",
   "DPO_or_Person_responsible_for_DP_Address_line_5",
   "DPO_or_Person_responsible_for_DP_Postcode",
   "Public_register_entry_URL"]

/-- Build the row bound to the insert statement from a parsed line. -/
def rowFromValues (headers values : List String) : IcoRegistration :=
  { registrationNumber := getField headers values "Registration_number"
    organisationName := getField headers values "Organisation_name"
    organisationPostcode := getField headers values "Organisation_postcode"
    publicAuthority := getField headers values "Public_authority"
    paymentTier := getField headers values "Payment_tier"
    otherFields := otherFieldNames.map (fun n => getField headers values n) }

/-- `INSERT OR REPLACE INTO ico_registrations` keyed on the primary key
`registration_number` (also `DatabaseService.insertRegistration`,
`src/services/database.ts` lines 103-147): any existing row with the
same key is replaced by the new row. -/
def insertRegistration (r : IcoRegistration) (store : List IcoRegistration) :
    List IcoRegistration :=
  (store.filter (fun x => x.registrationNumber ≠ r.registrationNumber)) ++ [r]

/-- Loader counters: the store contents plus the imported and skipped
row counts. -/
structure ImportCounters where
  store : List IcoRegistration
  recordCount : Nat
  skippedRecords : Nat
deriving DecidableEq, Repr

/-- One iteration of the loader's line loop. -/
def processLine (headers : List String) (acc : ImportCounters)
    (rawLine : String) : ImportCounters :=
  let line := jsTrim rawLine
  if line = "" then acc
  else
    let values := parseCSVLine line
    let reg := getField headers values "Registration_number"
    let org := getField headers values "Organisation_name"
    if reg = "" ∨ org = "" then
      { acc with skippedRecords := acc.skippedRecords + 1 }
    else
      { acc with
          store := insertRegistration (rowFromValues headers values) acc.store
          recordCount := acc.recordCount + 1 }

/-- The loader's loop over the data lines (everything after the header),
starting from the cleared store. -/
def processDataLines (headers : List String) (dataLines : List String) :
    ImportCounters :=
  dataLines.foldl (processLine headers)
    { store := [], recordCount := 0, skippedRecords := 0 }

/-! ### Version ledger

`data_versions` has `id INTEGER PRIMARY KEY AUTOINCREMENT` and
`file_sha256 TEXT NOT NULL UNIQUE` (`src/services/database.ts` lines
67-78).  `DatabaseService.insertDataVersion` (lines 207-224) runs
`UPDATE data_versions SET status = 'archived'` and then a plain
`INSERT ... status 'active'` as two separate autocommitted statements —
there is no BEGIN/COMMIT around the pair.  The fast loader
(`setup-db-fast.ts` lines 307-341) runs the same UPDATE followed by an
`INSERT OR REPLACE`. -/

/-- Status column of a `data_versions` row. -/
inductive VersionStatus where
  | active
  | archived
deriving DecidableEq, Repr

/-- One `data_versions` row. -/
structure DataVersion where
  id : Nat
  downloadDate : String
  fileSha256 : String
  fileSize : Nat
  recordCount : Nat
  downloadUrl : String
  status : VersionStatus
deriving DecidableEq, Repr

/-- The caller-supplied part of a new version row. -/
structure VersionInput where
  downloadDate : String
  fileSha256 : String
  fileSize : Nat
  recordCount : Nat
  downloadUrl : String
deriving DecidableEq, Repr

/-- The `data_versions` table plus the AUTOINCREMENT counter. -/
structure VersionLedger where
  rows : List DataVersion
  nextId : Nat
deriving DecidableEq, Repr

/-- A freshly created ledger. -/
def emptyLedger : VersionLedger := { rows := [], nextId := 1 }

/-- Whether a row reports `status = 'active'`. -/
def isActive (r : DataVersion) : Bool :=
  match r.status with
  | VersionStatus.active => true
  | VersionStatus.archived => false

/-- Number of rows a reader of the active version observes. -/
def countActive (L : VersionLedger) : Nat :=
  (L.rows.filter isActive).length

/-- `UPDATE data_versions SET status = 'archived'`. -/
def archiveAllVersions (L : VersionLedger) : VersionLedger :=
  { L with rows := L.rows.map (fun r => { r with status := VersionStatus.archived }) }

/-- The hash column's current contents. -/
def ledgerShas (L : VersionLedger) : List String :=
  L.rows.map (fun r => r.fileSha256)

/-- Plain `INSERT INTO data_versions ... 'active'`: rejected by the
UNIQUE constraint when the hash is already present, otherwise appended
with the next AUTOINCREMENT id.  Returns `lastID` on success. -/
def insertVersionRow (v : VersionInput) (L : VersionLedger) :
    Except String Nat × VersionLedger :=
  if v.fileSha256 ∈ ledgerShas L then
    (Except.error "SQLITE_CONSTRAINT: UNIQUE constraint failed: data_versions.file_sha256", L)
  else
    (Except.ok L.nextId,
      { rows := L.rows ++
          [{ id := L.nextId, downloadDate := v.downloadDate,
             fileSha256 := v.fileSha256, fileSize := v.fileSize,
             recordCount := v.recordCount, downloadUrl := v.downloadUrl,
             status := VersionStatus.active }]
        nextId := L.nextId + 1 })

/-- `INSERT OR REPLACE INTO data_versions ... 'active'`: any row with
the same hash is deleted, then the new row is appended with the next
AUTOINCREMENT id. -/
def insertOrReplaceVersionRow (v : VersionInput) (L : VersionLedger) :
    VersionLedger :=
  { rows := (L.rows.filter (fun r => r.fileSha256 ≠ v.fileSha256)) ++
      [{ id := L.nextId, downloadDate := v.downloadDate,
         fileSha256 := v.fileSha256, fileSize := v.fileSize,
         recordCount := v.recordCount, downloadUrl := v.downloadUrl,
         status := VersionStatus.active }]
    nextId := L.nextId + 1 }

/-- `DatabaseService.insertDataVersion`: archive every row, then plain
insert.  The two statements are separate autocommitted steps, so the
state after `archiveAllVersions` alone is a committed state a concurrent
reader can observe. -/
def insertDataVersion (v : VersionInput) (L : VersionLedger) :
    Except String Nat × VersionLedger :=
  insertVersionRow v (archiveAllVersions L)

/-- The fast loader's version recording: archive every row, then
`INSERT OR REPLACE`. -/
def recordVersionFast (v : VersionInput) (L : VersionLedger) : VersionLedger :=
  insertOrReplaceVersionRow v (archiveAllVersions L)

/-- `DatabaseService.getLatestFileSha256`: hash of the most recent
active row.  No code in the repository calls it. -/
def getLatestFileSha256 (L : VersionLedger) : Option String :=
  ((L.rows.filter isActive).map (fun r => r.fileSha256)).getLast?

/-- A completed version-recording operation.  The repository has three
paths that write `data_versions`: the plain-insert path of
`DatabaseService.insertDataVersion` (archive UPDATE, then INSERT), the
fast loader's path (archive UPDATE, then INSERT OR REPLACE), and the
shell import script's path, which runs a bare
`INSERT INTO data_versions (... status) VALUES (..., 'active')` with no
archive step at all. -/
inductive LedgerOp where
  | plain (v : VersionInput)
  | replaceOp (v : VersionInput)
  | shellInsert (v : VersionInput)
deriving DecidableEq, Repr

/-- Whether the operation is the shell import script's bare insert. -/
def isShellInsert : LedgerOp → Bool
  | LedgerOp.shellInsert _ => true
  | _ => false

/-- Run one completed operation against the ledger.  A plain insert
whose hash already exists leaves the archive step's state behind (its
UPDATE committed before the INSERT failed); the shell path's bare
insert touches nothing on a duplicate hash and otherwise appends a new
active row without archiving anything. -/
def applyLedgerOp (L : VersionLedger) (op : LedgerOp) : VersionLedger :=
  match op with
  | LedgerOp.plain v => (insertDataVersion v L).2
  | LedgerOp.replaceOp v => recordVersionFast v L
  | LedgerOp.shellInsert v => (insertVersionRow v L).2

/-- Run a sequence of completed operations from the fresh ledger. -/
def runLedgerOps (ops : List LedgerOp) : VersionLedger :=
  ops.foldl applyLedgerOp emptyLedger

/-! ### The whole fast import -/

/-- The import-visible database state. -/
structure DBState where
  regs : List IcoRegistration
  versions : VersionLedger
deriving DecidableEq, Repr

/-- A freshly created database. -/
def emptyDB : DBState := { regs := [], versions := emptyLedger }

/-- Modelled from the spec: the "content hash of the source file"
(SHA-256) is computed by library code outside this repository.  It is
modelled by the identity fingerprint — the content itself — which has
the property the pipeline relies on: two byte streams have equal
fingerprints exactly when they are byte-identical (idealised collision
freedom). -/
def fileSha256Model (content : String) : String := content

/-- `setupDatabaseFast` (`setup-db-fast.ts` lines 49-341): hash the
file, create tables, DELETE the registration table, parse the header,
process every data line, then archive old versions and INSERT OR
REPLACE the new active version.  Note there is no consultation of the
ledger before the import: the function never reads the recorded hashes.
`now` stands for `new Date().toISOString()`. -/
def importFast (content : String) (now : String) (db : DBState) : DBState :=
  let sha := fileSha256Model content
  let lines := splitNewlines content
  let headers := parseCSVLine (lines.headD "")
  let res := processDataLines headers lines.tail
  let v : VersionInput :=
    { downloadDate := now, fileSha256 := sha, fileSize := content.length,
      recordCount := res.recordCount, downloadUrl := "local-csv-file" }
  { regs := res.store, versions := recordVersionFast v db.versions }

/-! ### Concrete fixtures -/

/-- Header row used by the loader fixtures. -/
def fixtureHeaders : List String :=
  parseCSVLine "Registration_number,Organisation_name"

/-- Three-row fixture of claim C5: row 2 has an empty business key. -/
def c5Lines : List String :=
  ["ZA001,Org One", ",Org Two", "ZA003,Org Three"]

/-- A stored row of the C5 fixture. -/
def c5Row1 : IcoRegistration :=
  rowFromValues fixtureHeaders (parseCSVLine "ZA001,Org One")

/-- Two rows with the same business key and different names (claim C6). -/
def c6Lines : List String := ["K1,Name A", "K1,Name B"]

/-- The first C6 row. -/
def c6R1 : IcoRegistration :=
  rowFromValues fixtureHeaders (parseCSVLine "K1,Name A")

/-- The later-processed C6 row. -/
def c6R2 : IcoRegistration :=
  rowFromValues fixtureHeaders (parseCSVLine "K1,Name B")

/-- A one-data-row CSV file (claim C1). -/
def c1Content : String :=
  "Registration_number,Organisation_name\nZA001,Org One"

/-- The version-row input a loader run over `c1Content` hands to
`insertDataVersion`. -/
def c1Input (now : String) : VersionInput :=
  { downloadDate := now, fileSha256 := fileSha256Model c1Content,
    fileSize := c1Content.length, recordCount := 1,
    downloadUrl := "local-csv-file" }

/-- A ledger holding one active version (claim C2). -/
def c2Ledger : VersionLedger :=
  { rows := [{ id := 1, downloadDate := "2024-01-01", fileSha256 := "h0",
               fileSize := 10, recordCount := 5, downloadUrl := "u",
               status := VersionStatus.active }]
    nextId := 2 }

/-- A version-row input with a hash not yet in `c2Ledger`. -/
def c2Input : VersionInput :=
  { downloadDate := "2024-02-01", fileSha256 := "h1", fileSize := 11,
    recordCount := 6, downloadUrl := "u" }

/-- A version-row input with hash h1 (claim C3). -/
def c3V1 : VersionInput :=
  { downloadDate := "d1", fileSha256 := "h1", fileSize := 1,
    recordCount := 1, downloadUrl := "u" }

/-- A version-row input with hash h2 (claim C3). -/
def c3V2 : VersionInput :=
  { downloadDate := "d2", fileSha256 := "h2", fileSize := 2,
    recordCount := 2, downloadUrl := "u" }

/-- A registration row with only a key and a name. -/
def mkReg (k n : String) : IcoRegistration :=
  { registrationNumber := k, organisationName := n,
    organisationPostcode := "", publicAuthority := "", paymentTier := "",
    otherFields := [] }

/-- A row whose name does not contain a percent sign (claim C7). -/
def c7Row : IcoRegistration := mkReg "R1" "abc"

/-- Store for the C7 witness. -/
def c7wStore : List IcoRegistration := [mkReg "A1" "Acme", mkReg "N1" "NHS Trust"]

/-- The result set of the C7 witness search. -/
def c7wOut : List IcoRegistration :=
  sortedMatches { organisationName := some "nhs" } c7wStore

/-- Five rows with distinct names, deliberately out of order (claim C9). -/
def c9Rows : List IcoRegistration :=
  [mkReg "R3" "c", mkReg "R1" "a", mkReg "R5" "e", mkReg "R2" "b", mkReg "R4" "d"]

/-- The row ranked 2nd by name in `c9Rows`. -/
def c9B : IcoRegistration := mkReg "R2" "b"

/-- The row ranked 3rd by name in `c9Rows`. -/
def c9C : IcoRegistration := mkReg "R3" "c"

end IcoMcp

namespace IcoMcp

theorem parseFieldsAux_nil (current : List Char) (inQuotes : Bool)
    (result : List (List Char)) :
    parseFieldsAux [] current inQuotes result = result ++ [current] := by
  rw [parseFieldsAux.eq_def]

theorem parseFieldsAux_quote_false (rest current : List Char)
    (result : List (List Char)) :
    parseFieldsAux (quoteChar :: rest) current false result
      = parseFieldsAux rest current true result := by
  rw [parseFieldsAux.eq_def]
  simp

theorem parseFieldsAux_quote_quote (rest2 current : List Char)
    (result : List (List Char)) :
    parseFieldsAux (quoteChar :: quoteChar :: rest2) current true result
      = parseFieldsAux rest2 (current ++ [quoteChar]) true result := by
  rw [parseFieldsAux.eq_def]
  simp

theorem parseFieldsAux_quote_close (r2 : Char) (rest2 current : List Char)
    (result : List (List Char)) (hr : r2 ≠ quoteChar) :
    parseFieldsAux (quoteChar :: r2 :: rest2) current true result
      = parseFieldsAux (r2 :: rest2) current false result := by
  rw [parseFieldsAux.eq_def]
  simp [hr]

theorem parseFieldsAux_quote_eol (current : List Char)
    (result : List (List Char)) :
    parseFieldsAux [quoteChar] current true result
      = parseFieldsAux [] current false result := by
  rw [parseFieldsAux.eq_def]
  simp

theorem parseFieldsAux_comma (rest current : List Char)
    (result : List (List Char)) :
    parseFieldsAux (',' :: rest) current false result
      = parseFieldsAux rest [] false (result ++ [current]) := by
  rw [parseFieldsAux.eq_def]
  simp [quoteChar]

theorem parseFieldsAux_other (c : Char) (rest current : List Char)
    (inQuotes : Bool) (result : List (List Char))
    (hq : c ≠ quoteChar) (hc : ¬ (c = ',' ∧ inQuotes = false)) :
    parseFieldsAux (c :: rest) current inQuotes result
      = parseFieldsAux rest (current ++ [c]) inQuotes result := by
  rw [parseFieldsAux.eq_def]
  simp only [if_neg hq, if_neg hc]

theorem splitFields_nil (b : Bool) : splitFields b [] = [[]] := by
  cases b <;> rw [splitFields.eq_def]

theorem splitFields_comma (rest : List Char) :
    splitFields false (',' :: rest) = [] :: splitFields false rest := by
  rw [splitFields.eq_def]
  simp

theorem splitFields_open (rest : List Char) :
    splitFields false (quoteChar :: rest) = splitFields true rest := by
  rw [splitFields.eq_def]
  simp [quoteChar]

theorem splitFields_false_other (c : Char) (rest : List Char)
    (hc : c ≠ ',') (hq : c ≠ quoteChar) :
    splitFields false (c :: rest) = prependToFirst c (splitFields false rest) := by
  rw [splitFields.eq_def]
  simp [hc, hq]

theorem splitFields_quote_quote (rest2 : List Char) :
    splitFields true (quoteChar :: quoteChar :: rest2)
      = prependToFirst quoteChar (splitFields true rest2) := by
  rw [splitFields.eq_def]
  simp

theorem splitFields_quote_close (r2 : Char) (rest2 : List Char)
    (hr : r2 ≠ quoteChar) :
    splitFields true (quoteChar :: r2 :: rest2) = splitFields false (r2 :: rest2) := by
  rw [splitFields.eq_def]
  simp [hr]

theorem splitFields_quote_eol :
    splitFields true [quoteChar] = splitFields false [] := by
  rw [splitFields.eq_def]
  simp [splitFields_nil]

theorem splitFields_true_other (c : Char) (rest : List Char)
    (hq : c ≠ quoteChar) :
    splitFields true (c :: rest) = prependToFirst c (splitFields true rest) := by
  rw [splitFields.eq_def]
  simp [hq]

theorem mapFirstField_prependToFirst (s : List Char) (c : Char)
    (L : List (List Char)) :
    mapFirstField (fun x => s ++ x) (prependToFirst c L)
      = mapFirstField (fun x => (s ++ [c]) ++ x) L := by
  cases L with
  | nil => simp [prependToFirst, mapFirstField]
  | cons f fs => simp [prependToFirst, mapFirstField]

theorem splitFields_ne_nil_bounded :
    ∀ (n : Nat) (l : List Char), l.length ≤ n → ∀ (b : Bool), splitFields b l ≠ [] := by
  intro n
  induction n with
  | zero =>
    intro l hl b
    have hnil : l = [] := List.eq_nil_of_length_eq_zero (Nat.le_zero.mp hl)
    subst hnil
    simp [splitFields_nil]
  | succ n ih =>
    intro l hl b
    match l with
    | [] => simp [splitFields_nil]
    | c :: rest =>
      have hrest : rest.length ≤ n := by
        simp only [List.length_cons] at hl
        omega
      cases b with
      | false =>
        by_cases hc : c = ','
        · subst hc
          simp [splitFields_comma]
        · by_cases hq : c = quoteChar
          · subst hq
            rw [splitFields_open]
            exact ih rest hrest true
          · rw [splitFields_false_other c rest hc hq]
            cases h : splitFields false rest with
            | nil => exact absurd h (ih rest hrest false)
            | cons f fs => simp [prependToFirst]
      | true =>
        by_cases hq : c = quoteChar
        · subst hq
          match rest with
          | [] => simp [splitFields_quote_eol, splitFields_nil]
          | r2 :: rest2 =>
            by_cases hr : r2 = quoteChar
            · subst hr
              rw [splitFields_quote_quote]
              cases h : splitFields true rest2 with
              | nil =>
                have h2 : rest2.length ≤ n := by
                  simp only [List.length_cons] at hrest
                  omega
                exact absurd h (ih rest2 h2 true)
              | cons f fs => simp [prependToFirst]
            · rw [splitFields_quote_close r2 rest2 hr]
              exact ih (r2 :: rest2) hrest false
        · rw [splitFields_true_other c rest hq]
          cases h : splitFields true rest with
          | nil => exact absurd h (ih rest hrest true)
          | cons f fs => simp [prependToFirst]

theorem splitFields_ne_nil (b : Bool) (l : List Char) : splitFields b l ≠ [] :=
  splitFields_ne_nil_bounded l.length l (Nat.le_refl _) b

theorem parseFieldsAux_eq_splitFields_bounded :
    ∀ (n : Nat) (l : List Char), l.length ≤ n →
    ∀ (current : List Char) (inQuotes : Bool) (result : List (List Char)),
    parseFieldsAux l current inQuotes result
      = result ++ mapFirstField (fun x => current ++ x) (splitFields inQuotes l) := by
  intro n
  induction n with
  | zero =>
    intro l hl current inQuotes result
    have hnil : l = [] := List.eq_nil_of_length_eq_zero (Nat.le_zero.mp hl)
    subst hnil
    rw [parseFieldsAux_nil, splitFields_nil]
    simp [mapFirstField]
  | succ n ih =>
    intro l hl current inQuotes result
    match l with
    | [] =>
      rw [parseFieldsAux_nil, splitFields_nil]
      simp [mapFirstField]
    | c :: rest =>
      have hrest : rest.length ≤ n := by
        simp only [List.length_cons] at hl
        omega
      by_cases hq : c = quoteChar
      · subst hq
        cases inQuotes with
        | false =>
          rw [parseFieldsAux_quote_false, splitFields_open]
          exact ih rest hrest current true result
        | true =>
          match rest with
          | [] =>
            rw [parseFieldsAux_quote_eol, parseFieldsAux_nil,
              splitFields_quote_eol, splitFields_nil]
            simp [mapFirstField]
          | r2 :: rest2 =>
            by_cases hr : r2 = quoteChar
            · subst hr
              have h2 : rest2.length ≤ n := by
                simp only [List.length_cons] at hrest
                omega
              rw [parseFieldsAux_quote_quote, splitFields_quote_quote,
                mapFirstField_prependToFirst]
              exact ih rest2 h2 (current ++ [quoteChar]) true result
            · rw [parseFieldsAux_quote_close r2 rest2 current result hr,
                splitFields_quote_close r2 rest2 hr]
              exact ih (r2 :: rest2) hrest current false result
      · by_cases hc : c = ',' ∧ inQuotes = false
        · obtain ⟨hc1, hc2⟩ := hc
          subst hc1 hc2
          rw [parseFieldsAux_comma, splitFields_comma,
            ih rest hrest [] false (result ++ [current])]
          cases h : splitFields false rest with
          | nil => exact absurd h (splitFields_ne_nil false rest)
          | cons f fs => simp [mapFirstField]
        · rw [parseFieldsAux_other c rest current inQuotes result hq hc]
          cases inQuotes with
          | false =>
            have hc' : c ≠ ',' := fun h => hc ⟨h, rfl⟩
            rw [splitFields_false_other c rest hc' hq, mapFirstField_prependToFirst]
            exact ih rest hrest (current ++ [c]) false result
          | true =>
            rw [splitFields_true_other c rest hq, mapFirstField_prependToFirst]
            exact ih rest hrest (current ++ [c]) true result

theorem parseFieldsAux_eq_splitFields (l current : List Char) (inQuotes : Bool)
    (result : List (List Char)) :
    parseFieldsAux l current inQuotes result
      = result ++ mapFirstField (fun x => current ++ x) (splitFields inQuotes l) :=
  parseFieldsAux_eq_splitFields_bounded l.length l (Nat.le_refl _) current inQuotes result

/-- Claim C4: for every input line, the field parser returns the ordered
sequence of fields obtained by splitting on the delimiter character only
outside quoted spans, where inside a quoted span the delimiter is
literal, a doubled quote character represents one literal quote
character, and a quoted span left unterminated at end-of-line is treated
as implicitly closed.  `parseCSVLine` is the embedding of the source
function; `splitLineSpec` is written from the spec's words.  Both are
total functions, so no error is raised for any input. -/
theorem parseCSVLine_eq_spec (line : String) :
    parseCSVLine line = splitLineSpec line := by
  unfold parseCSVLine splitLineSpec
  rw [parseFieldsAux_eq_splitFields]
  cases h : splitFields false line.data with
  | nil => exact absurd h (splitFields_ne_nil false line.data)
  | cons f fs => simp [mapFirstField]

end IcoMcp

namespace IcoMcp

theorem countActive_archiveAllVersions (L : VersionLedger) :
    countActive (archiveAllVersions L) = 0 := by
  obtain ⟨rows, nid⟩ := L
  simp only [countActive, archiveAllVersions]
  induction rows with
  | nil => rfl
  | cons r rest ih =>
    simp only [List.map_cons, List.filter_cons]
    simp only [isActive, Bool.false_eq_true, if_false]
    exact ih

theorem ledgerShas_archiveAllVersions (L : VersionLedger) :
    ledgerShas (archiveAllVersions L) = ledgerShas L := by
  obtain ⟨rows, nid⟩ := L
  simp [ledgerShas, archiveAllVersions, List.map_map]

theorem pairwise_archiveAllVersions (L : VersionLedger)
    (h : L.rows.Pairwise (fun a b => a.fileSha256 ≠ b.fileSha256)) :
    (archiveAllVersions L).rows.Pairwise (fun a b => a.fileSha256 ≠ b.fileSha256) := by
  obtain ⟨rows, nid⟩ := L
  simp only [archiveAllVersions]
  rw [List.pairwise_map]
  exact h

theorem filter_isActive_archived (rows : List DataVersion)
    (h : ∀ r ∈ rows, isActive r = false) : rows.filter isActive = [] := by
  induction rows with
  | nil => rfl
  | cons r rest ih =>
    have hr : isActive r = false := h r (by simp)
    have hrest : ∀ x ∈ rest, isActive x = false := fun x hx => h x (by simp [hx])
    simp [List.filter, hr, ih hrest]

theorem archiveAllVersions_all_archived (L : VersionLedger) :
    ∀ r ∈ (archiveAllVersions L).rows, isActive r = false := by
  obtain ⟨rows, nid⟩ := L
  intro r hr
  simp only [archiveAllVersions, List.mem_map] at hr
  obtain ⟨x, _, rfl⟩ := hr
  rfl

/-- Claim C2 counterexample: between the archive statement and the
insert statement of `insertDataVersion` there is a committed state in
which zero rows have `status = active` (starting from a ledger with one
active row).  The two statements are separate autocommitted steps — the
source wraps them in no transaction — so this state is observable by a
concurrent reader of the active version. -/
theorem archive_step_exposes_zero_active :
    countActive c2Ledger = 1 ∧ countActive (archiveAllVersions c2Ledger) = 0 := by
  constructor
  · decide
  · decide

/-- Claim C2 (amended): `insertDataVersion` archives every row and
inserts the new active row as two separate autocommitted statements, not
one atomic unit: after the archive step alone, zero rows are active;
once the insert step also completes (hash not already recorded), exactly
one row is active. -/
theorem insertDataVersion_two_step_transition (L : VersionLedger) (v : VersionInput) :
    countActive (archiveAllVersions L) = 0 ∧
      (v.fileSha256 ∉ ledgerShas L →
        countActive (insertDataVersion v L).2 = 1) := by
  constructor
  · exact countActive_archiveAllVersions L
  · intro hnew
    have hnew2 : v.fileSha256 ∉ ledgerShas (archiveAllVersions L) := by
      rw [ledgerShas_archiveAllVersions]
      exact hnew
    simp only [insertDataVersion, insertVersionRow, if_neg hnew2]
    simp only [countActive, List.filter_append]
    rw [filter_isActive_archived _ (archiveAllVersions_all_archived L)]
    rfl

theorem insertDataVersion_two_step_transition_witness :
    countActive (archiveAllVersions c2Ledger) = 0 ∧
      countActive (insertDataVersion c2Input c2Ledger).2 = 1 :=
  ⟨(insertDataVersion_two_step_transition c2Ledger c2Input).1,
   (insertDataVersion_two_step_transition c2Ledger c2Input).2 (by decide)⟩

theorem pairwise_insertVersionRow (v : VersionInput) (L : VersionLedger)
    (hpair : L.rows.Pairwise (fun a b => a.fileSha256 ≠ b.fileSha256)) :
    ((insertVersionRow v L).2).rows.Pairwise
      (fun a b => a.fileSha256 ≠ b.fileSha256) := by
  by_cases hdup : v.fileSha256 ∈ ledgerShas L
  · simp only [insertVersionRow, if_pos hdup]
    exact hpair
  · simp only [insertVersionRow, if_neg hdup]
    rw [List.pairwise_append]
    refine ⟨hpair, by simp, ?_⟩
    intro a ha b hb
    simp only [List.mem_singleton] at hb
    subst hb
    intro hsha
    apply hdup
    simp only [ledgerShas, List.mem_map]
    exact ⟨a, ha, hsha⟩

theorem applyLedgerOp_preserves_pairwise (L : VersionLedger) (op : LedgerOp)
    (hpair : L.rows.Pairwise (fun a b => a.fileSha256 ≠ b.fileSha256)) :
    (applyLedgerOp L op).rows.Pairwise
      (fun a b => a.fileSha256 ≠ b.fileSha256) := by
  cases op with
  | plain v =>
    simp only [applyLedgerOp, insertDataVersion]
    exact pairwise_insertVersionRow v (archiveAllVersions L)
      (pairwise_archiveAllVersions L hpair)
  | replaceOp v =>
    simp only [applyLedgerOp, recordVersionFast, insertOrReplaceVersionRow]
    rw [List.pairwise_append]
    refine ⟨?_, by simp, ?_⟩
    · exact (pairwise_archiveAllVersions L hpair).sublist
        (List.filter_sublist _)
    · intro a ha b hb
      simp only [List.mem_singleton] at hb
      subst hb
      simp only [List.mem_filter, decide_eq_true_eq] at ha
      exact ha.2
  | shellInsert v =>
    simp only [applyLedgerOp]
    exact pairwise_insertVersionRow v L hpair

theorem applyLedgerOp_nonshell_active (L : VersionLedger) (op : LedgerOp)
    (hop : isShellInsert op = false) :
    countActive (applyLedgerOp L op) ≤ 1 := by
  cases op with
  | plain v =>
    simp only [applyLedgerOp, insertDataVersion]
    by_cases hdup : v.fileSha256 ∈ ledgerShas (archiveAllVersions L)
    · simp only [insertVersionRow, if_pos hdup]
      rw [countActive_archiveAllVersions L]
      omega
    · simp only [insertVersionRow, if_neg hdup]
      simp only [countActive, List.filter_append]
      rw [filter_isActive_archived _ (archiveAllVersions_all_archived L)]
      simp [isActive]
  | replaceOp v =>
    simp only [applyLedgerOp, recordVersionFast, insertOrReplaceVersionRow]
    simp only [countActive, List.filter_append]
    have hsub : ∀ r ∈ (archiveAllVersions L).rows.filter
        (fun r => r.fileSha256 ≠ v.fileSha256), isActive r = false := by
      intro r hr
      exact archiveAllVersions_all_archived L r (List.mem_of_mem_filter hr)
    rw [filter_isActive_archived _ hsub]
    simp [isActive]
  | shellInsert v =>
    simp [isShellInsert] at hop

theorem foldl_ledgerOps_pairwise (ops : List LedgerOp) :
    ∀ (L : VersionLedger),
    L.rows.Pairwise (fun a b => a.fileSha256 ≠ b.fileSha256) →
    ((ops.foldl applyLedgerOp L)).rows.Pairwise
      (fun a b => a.fileSha256 ≠ b.fileSha256) := by
  induction ops with
  | nil => intro L h; exact h
  | cons op rest ih =>
    intro L h
    exact ih (applyLedgerOp L op) (applyLedgerOp_preserves_pairwise L op h)

theorem foldl_ledgerOps_active (ops : List LedgerOp) :
    ∀ (L : VersionLedger), countActive L ≤ 1 →
    (∀ op ∈ ops, isShellInsert op = false) →
    countActive (ops.foldl applyLedgerOp L) ≤ 1 := by
  induction ops with
  | nil => intro L h _; exact h
  | cons op rest ih =>
    intro L _ hops
    refine ih (applyLedgerOp L op) ?_ ?_
    · exact applyLedgerOp_nonshell_active L op (hops op (by simp))
    · intro x hx
      exact hops x (by simp [hx])

/-- Claim C3 counterexample: the claim quantifies over every sequence of
the program's completed version-recording operations, but the shell
script's import path inserts an active row with no archive step, so a
fast-loader import followed by a shell import with a different file hash
leaves TWO rows with `status = active` — refuting "at most one row has
status = active" at a concrete operation sequence. -/
theorem shell_import_leaves_two_active :
    countActive (runLedgerOps
      [LedgerOp.replaceOp c3V1, LedgerOp.shellInsert c3V2]) = 2 := by
  decide

/-- Claim C3 (amended): after every sequence of completed
version-recording operations, no two `data_versions` rows share the
same content hash (so a second import of byte-identical content never
creates a second version row for that hash); and for every sequence
that stays on the TypeScript recording paths
(`DatabaseService.insertDataVersion` and the fast loader's
archive-then-insert-or-replace) at most one row has `status = active`.
The shell import script's bare insert, which archives nothing, is the
one path that can break the single-active part. -/
theorem ledger_invariant_holds (ops : List LedgerOp) :
    (runLedgerOps ops).rows.Pairwise
        (fun a b => a.fileSha256 ≠ b.fileSha256) ∧
      ((∀ op ∈ ops, isShellInsert op = false) →
        countActive (runLedgerOps ops) ≤ 1) := by
  constructor
  · apply foldl_ledgerOps_pairwise
    simp [emptyLedger]
  · intro hops
    exact foldl_ledgerOps_active ops emptyLedger (by decide) hops

theorem ledger_invariant_holds_witness :
    (runLedgerOps [LedgerOp.plain c3V1, LedgerOp.replaceOp c3V2]).rows.Pairwise
        (fun a b => a.fileSha256 ≠ b.fileSha256) ∧
      countActive (runLedgerOps [LedgerOp.plain c3V1, LedgerOp.replaceOp c3V2]) ≤ 1 :=
  ⟨(ledger_invariant_holds [LedgerOp.plain c3V1, LedgerOp.replaceOp c3V2]).1,
   (ledger_invariant_holds [LedgerOp.plain c3V1, LedgerOp.replaceOp c3V2]).2
     (by decide)⟩

/-- Claim C1 is a code bug: re-running the import on byte-identical
content is not a no-op.  `setupDatabaseFast` never consults the ledger
(`getLatestFileSha256` has no caller anywhere in the repository): the
second run re-clears and re-imports the store and REPLACES the ledger
row — the surviving row has a fresh AUTOINCREMENT id (2, not 1), so the
store was touched.  Worse, the `DatabaseService.insertDataVersion` path
used by `setup-db.ts` archives every row and then fails the UNIQUE
constraint on the duplicate hash, leaving ZERO active versions — not
the "exactly one active DataVersion" the claim guarantees. -/
theorem second_import_is_not_a_noop :
    (importFast c1Content "t1" emptyDB).versions.rows.map (fun r => r.id) = [1] ∧
    (importFast c1Content "t2" (importFast c1Content "t1" emptyDB)).versions.rows.map
        (fun r => r.id) = [2] ∧
    (insertDataVersion (c1Input "t2")
        (importFast c1Content "t1" emptyDB).versions).1 =
      Except.error "SQLITE_CONSTRAINT: UNIQUE constraint failed: data_versions.file_sha256" ∧
    countActive (insertDataVersion (c1Input "t2")
        (importFast c1Content "t1" emptyDB).versions).2 = 0 := by
  refine ⟨by decide, by decide, by decide, by decide⟩

end IcoMcp

namespace IcoMcp

theorem processLine_store_mem (headers : List String) (acc : ImportCounters)
    (line : String) (r : IcoRegistration)
    (hr : r ∈ (processLine headers acc line).store) :
    r ∈ acc.store ∨
      (r.registrationNumber ≠ "" ∧ r.organisationName ≠ "") := by
  unfold processLine at hr
  by_cases hblank : jsTrim line = ""
  · rw [if_pos hblank] at hr
    exact Or.inl hr
  · rw [if_neg hblank] at hr
    simp only at hr
    by_cases hskip : getField headers (parseCSVLine (jsTrim line)) "Registration_number" = ""
        ∨ getField headers (parseCSVLine (jsTrim line)) "Organisation_name" = ""
    · rw [if_pos hskip] at hr
      exact Or.inl hr
    · rw [if_neg hskip] at hr
      push_neg at hskip
      simp only [insertRegistration, List.mem_append, List.mem_filter,
        List.mem_singleton] at hr
      rcases hr with ⟨hmem, _⟩ | rfl
      · exact Or.inl hmem
      · exact Or.inr ⟨hskip.1, hskip.2⟩

theorem foldl_processLine_store_mem (headers : List String) :
    ∀ (dataLines : List String) (acc : ImportCounters),
    (∀ r ∈ acc.store, r.registrationNumber ≠ "" ∧ r.organisationName ≠ "") →
    ∀ r ∈ (dataLines.foldl (processLine headers) acc).store,
      r.registrationNumber ≠ "" ∧ r.organisationName ≠ "" := by
  intro dataLines
  induction dataLines with
  | nil => intro acc hacc r hr; exact hacc r hr
  | cons line rest ih =>
    intro acc hacc r hr
    refine ih (processLine headers acc line) ?_ r hr
    intro x hx
    rcases processLine_store_mem headers acc line x hx with hmem | hok
    · exact hacc x hmem
    · exact hok

/-- Claim C5: a source row whose business key or name field is empty is
skipped and counted rather than stored, so the store only ever contains
rows with both fields non-empty; and on the 3-row fixture whose second
row has an empty business key, the import reports 2 records imported,
1 record skipped, and the store holds exactly 2 rows. -/
theorem import_skips_rows_missing_required_fields :
    (∀ (headers dataLines : List String) (r : IcoRegistration),
        r ∈ (processDataLines headers dataLines).store →
        r.registrationNumber ≠ "" ∧ r.organisationName ≠ "") ∧
    (processDataLines fixtureHeaders c5Lines).recordCount = 2 ∧
    (processDataLines fixtureHeaders c5Lines).skippedRecords = 1 ∧
    (processDataLines fixtureHeaders c5Lines).store.length = 2 := by
  refine ⟨?_, by decide, by decide, by decide⟩
  intro headers dataLines r hr
  exact foldl_processLine_store_mem headers dataLines
    { store := [], recordCount := 0, skippedRecords := 0 } (by simp) r hr

theorem import_skips_rows_missing_required_fields_witness :
    c5Row1.registrationNumber ≠ "" ∧ c5Row1.organisationName ≠ "" :=
  import_skips_rows_missing_required_fields.1 fixtureHeaders c5Lines c5Row1
    (by decide)

theorem filter_insertRegistration_self (st : List IcoRegistration)
    (r : IcoRegistration) :
    (insertRegistration r st).filter
      (fun x => x.registrationNumber = r.registrationNumber) = [r] := by
  simp only [insertRegistration, List.filter_append]
  have h1 : (st.filter (fun x => x.registrationNumber ≠ r.registrationNumber)).filter
      (fun x => x.registrationNumber = r.registrationNumber) = [] := by
    rw [List.filter_eq_nil_iff]
    intro a ha
    simp only [List.mem_filter, decide_eq_true_eq] at ha
    simp only [decide_eq_true_eq]
    exact ha.2
  rw [h1]
  simp

/-- Claim C6: when two source rows share a business key (with different
names or not), the insert-or-replace statement leaves exactly one stored
row for that key, holding the later-processed row's values; on the
two-line fixture sharing key K1, the store ends up holding exactly the
second row. -/
theorem upsert_last_write_wins :
    (∀ (st : List IcoRegistration) (r1 r2 : IcoRegistration),
        r1.registrationNumber = r2.registrationNumber →
        (insertRegistration r2 (insertRegistration r1 st)).filter
          (fun x => x.registrationNumber = r1.registrationNumber) = [r2]) ∧
    (processDataLines fixtureHeaders c6Lines).store = [c6R2] := by
  refine ⟨?_, by decide⟩
  intro st r1 r2 h
  rw [h]
  exact filter_insertRegistration_self (insertRegistration r1 st) r2

theorem upsert_last_write_wins_witness :
    (insertRegistration c6R2 (insertRegistration c6R1 [])).filter
      (fun x => x.registrationNumber = c6R1.registrationNumber) = [c6R2] :=
  upsert_last_write_wins.1 [] c6R1 c6R2 (by decide)

end IcoMcp

namespace IcoMcp

theorem likeMatch_nil (s : List Char) : likeMatch [] s = s.isEmpty := by
  rw [likeMatch.eq_def]

theorem likeMatch_pct (ps s : List Char) :
    likeMatch ('%' :: ps) s = s.tails.any (fun t => likeMatch ps t) := by
  rw [likeMatch.eq_def]
  simp

theorem likeMatch_lit_nil (p : Char) (ps : List Char)
    (hp : p ≠ '%') (hu : p ≠ '_') : likeMatch (p :: ps) [] = false := by
  rw [likeMatch.eq_def]
  simp [hp, hu]

theorem likeMatch_lit_cons (p : Char) (ps : List Char) (c : Char) (s : List Char)
    (hp : p ≠ '%') (hu : p ≠ '_') :
    likeMatch (p :: ps) (c :: s)
      = (decide (lowerAscii p = lowerAscii c) && likeMatch ps s) := by
  rw [likeMatch.eq_def]
  simp [hp, hu]

theorem likeMatch_pct_iff (ps s : List Char) :
    likeMatch ('%' :: ps) s = true ↔ ∃ t, t <:+ s ∧ likeMatch ps t = true := by
  rw [likeMatch_pct]
  simp only [List.any_eq_true]
  constructor
  · rintro ⟨t, ht, hm⟩
    exact ⟨t, (List.mem_tails t s).mp ht, hm⟩
  · rintro ⟨t, ht, hm⟩
    exact ⟨t, (List.mem_tails t s).mpr ht, hm⟩

theorem likeMatch_trailing_pct (v : List Char)
    (hv : ∀ c ∈ v, c ≠ '%' ∧ c ≠ '_') :
    ∀ t, likeMatch (v ++ ['%']) t = true ↔
      (v.map lowerAscii) <+: (t.map lowerAscii) := by
  induction v with
  | nil =>
    intro t
    simp only [List.nil_append, List.map_nil]
    rw [likeMatch_pct_iff]
    constructor
    · intro _
      exact List.nil_prefix
    · intro _
      refine ⟨[], List.nil_suffix, ?_⟩
      rw [likeMatch_nil]
      rfl
  | cons a v ih =>
    intro t
    have ha := hv a (by simp)
    have hv2 : ∀ c ∈ v, c ≠ '%' ∧ c ≠ '_' := fun c hc => hv c (by simp [hc])
    cases t with
    | nil =>
      rw [List.cons_append, likeMatch_lit_nil a (v ++ ['%']) ha.1 ha.2]
      simp
    | cons c t2 =>
      rw [List.cons_append, likeMatch_lit_cons a (v ++ ['%']) c t2 ha.1 ha.2]
      simp only [List.map_cons, List.cons_prefix_cons, Bool.and_eq_true,
        decide_eq_true_eq]
      rw [ih hv2 t2]

theorem suffix_of_map_lowerAscii :
    ∀ (l : List Char) (u : List Char), u <:+ l.map lowerAscii →
      ∃ t, t <:+ l ∧ u = t.map lowerAscii := by
  intro l
  induction l with
  | nil =>
    intro u hu
    simp only [List.map_nil, List.suffix_nil] at hu
    exact ⟨[], List.suffix_rfl, by simp [hu]⟩
  | cons a l ih =>
    intro u hu
    simp only [List.map_cons] at hu
    rcases List.suffix_cons_iff.mp hu with heq | htail
    · exact ⟨a :: l, List.suffix_rfl, by simp [heq]⟩
    · obtain ⟨t, ht, rfl⟩ := ih u htail
      exact ⟨t, ht.trans (List.suffix_cons a l), rfl⟩

theorem likeMatch_likePattern_iff (v : String) (s : List Char)
    (hv : ∀ c ∈ v.data, c ≠ '%' ∧ c ≠ '_') :
    likeMatch (likePattern v) s = true ↔
      (v.data.map lowerAscii) <:+: (s.map lowerAscii) := by
  unfold likePattern
  rw [likeMatch_pct_iff]
  constructor
  · rintro ⟨t, hts, hm⟩
    rw [likeMatch_trailing_pct v.data hv t] at hm
    exact List.infix_iff_prefix_suffix.mpr
      ⟨t.map lowerAscii, hm, hts.map lowerAscii⟩
  · intro hinf
    obtain ⟨u, hpre, hsuf⟩ := List.infix_iff_prefix_suffix.mp hinf
    obtain ⟨t, hts, rfl⟩ := suffix_of_map_lowerAscii s u hsuf
    refine ⟨t, hts, ?_⟩
    rw [likeMatch_trailing_pct v.data hv t]
    exact hpre

/-- Claim C7 counterexample: with a one-row store whose name is "abc"
and the name filter "%", the search returns the row even though "abc"
does not contain "%" as a substring, because the filter value is spliced
into a LIKE pattern where the percent sign is a metacharacter.  So the
claim "search with a name filter returns exactly the rows whose name
contains the filter value as a substring ... and no other rows",
quantified over every filter value, is false. -/
theorem name_filter_wildcard_counterexample :
    searchRegistrations { organisationName := some "%" } [c7Row]
        = Except.ok [c7Row] ∧
      ¬ containsCI c7Row.organisationName "%" := by
  constructor
  · decide
  · decide

/-- Claim C7 (amended): for every name filter value containing no LIKE
metacharacter (percent sign or underscore), search with that name filter
returns exactly the rows whose name field contains the filter value as a
substring, matched case-insensitively for ASCII letters, and no other
rows.  The empty value included: JS truthiness means an empty filter is
never applied as a predicate, every row comes back, and every name
contains the empty string — the claim holds there too. -/
theorem name_filter_substring_semantics (v : String)
    (st out : List IcoRegistration) (r : IcoRegistration)
    (hv : ∀ c ∈ v.data, c ≠ '%' ∧ c ≠ '_')
    (h : searchRegistrations { organisationName := some v } st = Except.ok out) :
    r ∈ out ↔ r ∈ st ∧ containsCI r.organisationName v := by
  have hout : out = sortedMatches { organisationName := some v } st := by
    simp only [searchRegistrations, natTruthy] at h
    exact (Except.ok.injEq _ _).mp h.symm
  subst hout
  have hperm : List.Perm (sortedMatches { organisationName := some v } st)
      (st.filter (matchesQuery { organisationName := some v })) :=
    List.perm_insertionSort rowLe _
  rw [hperm.mem_iff, List.mem_filter]
  by_cases hne : v = ""
  · subst hne
    have hmq : matchesQuery { organisationName := some "" } r = true := by
      simp [matchesQuery, strTruthy]
      exact Or.inl rfl
    rw [hmq]
    have hci : containsCI r.organisationName "" := by
      unfold containsCI
      simp
    simp [hci]
  · have hmq : matchesQuery { organisationName := some v } r
        = likeMatch (likePattern v) r.organisationName.data := by
      simp [matchesQuery, strTruthy, String.isEmpty_iff, hne]
    rw [hmq]
    unfold containsCI
    rw [likeMatch_likePattern_iff v r.organisationName.data hv]

theorem name_filter_substring_semantics_witness :
    mkReg "N1" "NHS Trust" ∈ c7wOut ↔
      mkReg "N1" "NHS Trust" ∈ c7wStore ∧ containsCI "NHS Trust" "nhs" :=
  name_filter_substring_semantics "nhs" c7wStore c7wOut (mkReg "N1" "NHS Trust")
    (by decide) (by rfl)

end IcoMcp

namespace IcoMcp

theorem lexLe_nil (y : List Char) : lexLe [] y = true := by
  rw [lexLe.eq_def]

theorem lexLe_cons_nil (a : Char) (as : List Char) : lexLe (a :: as) [] = false := by
  rw [lexLe.eq_def]

theorem lexLe_cons_cons (a : Char) (as : List Char) (b : Char) (bs : List Char) :
    lexLe (a :: as) (b :: bs)
      = if a.toNat < b.toNat then true
        else if a.toNat = b.toNat then lexLe as bs else false := by
  rw [lexLe.eq_def]

theorem lexLe_total : ∀ (x y : List Char), lexLe x y = true ∨ lexLe y x = true := by
  intro x
  induction x with
  | nil => intro y; exact Or.inl (lexLe_nil y)
  | cons a as ih =>
    intro y
    cases y with
    | nil => exact Or.inr (lexLe_nil (a :: as))
    | cons b bs =>
      rw [lexLe_cons_cons, lexLe_cons_cons]
      rcases Nat.lt_trichotomy a.toNat b.toNat with hlt | heq | hgt
      · left
        simp [hlt]
      · rcases ih bs with h | h
        · left
          simp [heq, Nat.lt_irrefl, h]
        · right
          simp [heq.symm, Nat.lt_irrefl, h]
      · right
        simp [hgt]

theorem lexLe_trans :
    ∀ (x y z : List Char), lexLe x y = true → lexLe y z = true → lexLe x z = true := by
  intro x
  induction x with
  | nil => intro y z _ _; exact lexLe_nil z
  | cons a as ih =>
    intro y z hxy hyz
    cases y with
    | nil => rw [lexLe_cons_nil] at hxy; exact absurd hxy (by simp)
    | cons b bs =>
      cases z with
      | nil => rw [lexLe_cons_nil] at hyz; exact absurd hyz (by simp)
      | cons c cs =>
        rw [lexLe_cons_cons] at hxy hyz ⊢
        by_cases hab : a.toNat < b.toNat
        · by_cases hbc : b.toNat < c.toNat
          · simp [Nat.lt_trans hab hbc]
          · simp only [if_neg hbc] at hyz
            by_cases hbc2 : b.toNat = c.toNat
            · simp [hbc2 ▸ hab]
            · simp [if_neg hbc2] at hyz
        · simp only [if_neg hab] at hxy
          by_cases hab2 : a.toNat = b.toNat
          · simp only [if_pos hab2] at hxy
            by_cases hbc : b.toNat < c.toNat
            · simp [hab2 ▸ hbc]
            · simp only [if_neg hbc] at hyz
              by_cases hbc2 : b.toNat = c.toNat
              · have hac : a.toNat = c.toNat := hab2.trans hbc2
                have : ¬ a.toNat < c.toNat := by omega
                simp only [if_neg this, if_pos hac]
                simp only [if_pos hbc2] at hyz
                exact ih bs cs hxy hyz
              · simp [if_neg hbc2] at hyz
          · simp [if_neg hab2] at hxy

theorem sortByName_sorted (l : List IcoRegistration) :
    List.Sorted rowLe (sortByName l) := by
  haveI htot : IsTotal IcoRegistration rowLe := ⟨fun a b => lexLe_total _ _⟩
  haveI htrans : IsTrans IcoRegistration rowLe := ⟨fun a b c => lexLe_trans _ _ _⟩
  exact List.sorted_insertionSort rowLe l

/-- Claim C9: search results are always ordered by the name field
ascending, and pagination is stable: on five rows with distinct names,
limit 2 with offset 1 returns exactly the rows ranked 2nd and 3rd by
name. -/
theorem search_ordered_by_name :
    (∀ (q : SearchQuery) (st out : List IcoRegistration),
        searchRegistrations q st = Except.ok out → List.Sorted rowLe out) ∧
    searchRegistrations { limit := some 2, offset := some 1 } c9Rows
      = Except.ok [c9B, c9C] := by
  refine ⟨?_, by decide⟩
  intro q st out h
  have hs : List.Sorted rowLe (sortedMatches q st) := sortByName_sorted _
  unfold searchRegistrations at h
  split at h
  · split at h
    · injection h with h2
      subst h2
      exact List.Pairwise.sublist ((List.take_sublist _ _).trans (List.drop_sublist _ _)) hs
    · injection h with h2
      subst h2
      exact List.Pairwise.sublist (List.take_sublist _ _) hs
  · split at h
    · exact absurd h (by simp)
    · injection h with h2
      subst h2
      exact hs

theorem search_ordered_by_name_witness : List.Sorted rowLe [c9B, c9C] :=
  search_ordered_by_name.1 { limit := some 2, offset := some 1 } c9Rows
    [c9B, c9C] (by decide)

/-- Claim C8: with limit and offset unset on the request, the GET
/search route substitutes the defaults limit 10 and offset 0, and the
query service then returns the first 10 rows of the ordered matching
result set — at most 10 rows, starting from the first. -/
theorem route_defaults_limit_ten_offset_zero
    (name regNum pc pa tier : Option String) (st : List IcoRegistration) :
    searchRegistrations (routeSearchQuery name regNum pc pa tier none none) st
      = Except.ok
          ((sortedMatches (routeSearchQuery name regNum pc pa tier none none) st).take 10) := by
  simp [searchRegistrations, routeSearchQuery, natTruthy]

/-- Claim C10: a filter with a truthy offset but an unset-or-zero limit
makes `searchRegistrations` emit an OFFSET clause with no LIMIT clause,
which SQLite rejects, so the call fails instead of returning rows; and a
filter with limit 0 (and no truthy offset) gets no LIMIT clause at all,
so every matching row is returned rather than none. -/
theorem offset_without_limit_fails :
    (∀ (q : SearchQuery) (st : List IcoRegistration),
        natTruthy q.offset = true → natTruthy q.limit = false →
        searchRegistrations q st
          = Except.error "SQLITE_ERROR: near OFFSET: syntax error") ∧
    (∀ (q : SearchQuery) (st : List IcoRegistration),
        q.limit = some 0 → natTruthy q.offset = false →
        searchRegistrations q st = Except.ok (sortedMatches q st)) := by
  constructor
  · intro q st ho hl
    simp [searchRegistrations, ho, hl]
  · intro q st hl ho
    have hl2 : natTruthy q.limit = false := by
      rw [hl]
      simp [natTruthy]
    simp [searchRegistrations, hl2, ho]

theorem offset_without_limit_fails_witness :
    searchRegistrations { offset := some 3 } [c7Row]
        = Except.error "SQLITE_ERROR: near OFFSET: syntax error" ∧
      searchRegistrations { limit := some 0 } [c7Row]
        = Except.ok (sortedMatches { limit := some 0 } [c7Row]) :=
  ⟨offset_without_limit_fails.1 { offset := some 3 } [c7Row] (by decide) (by decide),
   offset_without_limit_fails.2 { limit := some 0 } [c7Row] rfl (by decide)⟩

end IcoMcp
